import Mathlib

/-!
# Verification of the strutex caching subsystem

The repository's caching subsystem (`strutex.cache.base`, `strutex.cache.memory`,
`strutex.cache.file`, `strutex.cache.sqlite`) is exercised by its tests
(`tests/test_cache.py`) and examples (`examples/caching_example.py`), but the
implementation modules themselves are not present in the source tree.  The
definitions below are therefore modelled from the specification (fingerprint
derivation, cache entry records, and the three storage backends), keeping the
names used by the tests and examples (`CacheKey.create`, `MemoryCache`,
`FileCache`, `SQLiteCache`, `get`/`set`/`delete`/`clear`/`cleanup_expired`).

Modelling conventions:
* Time is an explicit rational-number parameter `now` threaded through every
  operation (the Python code reads `time.time()`).
* Cryptographic digests are idealised as perfect (injective) digests: a digest
  is represented by the digested content itself.  This is the standard shallow
  model of collision resistance; none of the claims depend on the particular
  digest bit-pattern, only on equality/inequality of digests.
* The filesystem visible to `CacheKey.create` is an explicit map from paths to
  optional byte lists; a `FileCache` directory is a finite map from file names
  to file contents, where a file is either a parseable entry record or raw
  unparseable text; a SQLite table is a list of rows.
* Stored values are an opaque type parameter `V` ("an arbitrary serializable
  structure"), matching the spec's opaque-value design note.
-/

/-- Modelled from the spec (missing module `strutex.cache.base`): the
cryptographic digest of a component, idealised as a perfect digest represented
by the digested bytes themselves, so that digest equality coincides with
content equality (collision resistance idealised as injectivity). -/
def digestBytes (b : List Nat) : List Nat := b

/-- Modelled from the spec (missing module `strutex.cache.base`): the
cryptographic digest of a text component, idealised as a perfect digest. -/
def digestString (s : String) : String := s

/-- Insert a key/value pair into a key-sorted association list, keeping it
sorted by key (used for the canonical, order-independent schema form). -/
def insertSortedByKey (p : String × Nat) : List (String × Nat) → List (String × Nat)
  | [] => [p]
  | q :: t => if p.1 ≤ q.1 then p :: q :: t else q :: insertSortedByKey p t

/-- Sort an association list by key (insertion sort). -/
def sortByKey (l : List (String × Nat)) : List (String × Nat) :=
  l.foldr insertSortedByKey []

/-- Modelled from the spec (missing module `strutex.cache.base`): canonical,
order-independent textual serialization of a schema description (sorted-key
JSON).  The schema is modelled as a finite string-keyed map. -/
def canonicalSchema (s : List (String × Nat)) : String :=
  "\x7b" ++ String.intercalate "," ((sortByKey s).map (fun p => p.1 ++ ":" ++ toString p.2)) ++ "\x7d"

/-- Modelled from the spec (missing module `strutex.cache.base`): case
normalization of the provider/model identifiers (Python `str.lower()`),
character by character. -/
def lowerString (s : String) : String := String.mk (s.toList.map Char.toLower)

/-- Modelled from the spec (missing module `strutex.cache.base`): the cache
fingerprint.  Field names follow the constructor calls in
`examples/caching_example.py` (`file_hash`, `prompt_hash`, `schema_hash`,
`provider`, `model`); `model` is the empty string when absent. -/
structure CacheKey where
  file_hash : List Nat
  prompt_hash : String
  schema_hash : String
  provider : String
  model : String
deriving DecidableEq, Repr

/-- Modelled from the spec (missing module `strutex.cache.base`): canonical
string form of a fingerprint — the five components joined by `:`. -/
def CacheKey.to_string (k : CacheKey) : String :=
  String.intercalate ":"
    [String.intercalate "," (k.file_hash.map toString),
     k.prompt_hash, k.schema_hash, k.provider, k.model]

/-- Modelled from the spec (missing module `strutex.cache.base`): the derived
integer hash of a fingerprint (Python `__hash__`), modelled as a 64-bit
polynomial string hash of the canonical form. -/
def CacheKey.hashInt (k : CacheKey) : Nat :=
  k.to_string.foldl (fun h c => (h * 31 + c.toNat) % (2 ^ 64)) 7

/-- Modelled from the spec (missing module `strutex.cache.base`):
`CacheKey.create(file_path, prompt, schema, provider, model)`.  `fs` is the
filesystem seen by the call (path to optional raw bytes).  `contentHash` is the
digest of the file's raw bytes; when no file exists at the path the digest
falls back to the bytes of the path string itself (the tests call
`CacheKey.create("doc.pdf", ...)` with no such file and expect a usable,
deterministic key).  `provider` and `model` are lower-cased; the schema is
canonically serialized before digesting. -/
def CacheKey.create (fs : String → Option (List Nat)) (file_path : String)
    (prompt : String) (schema : List (String × Nat)) (provider : String)
    (model : String) : CacheKey :=
  { file_hash :=
      match fs file_path with
      | some bytes => digestBytes bytes
      | none => digestBytes (file_path.toList.map Char.toNat)
    prompt_hash := digestString prompt
    schema_hash := digestString (canonicalSchema schema)
    provider := lowerString provider
    model := lowerString model }

/-- Modelled from the spec (missing module `strutex.cache.base`): the stored
cache entry record `{value, createdAt, ttlSeconds}`; `ttl = 0` means "never
expires" (the source treats zero and unset identically, spec §9). -/
structure CacheEntry (V : Type) where
  value : V
  created_at : ℚ
  ttl : ℚ
deriving DecidableEq

/-- Modelled from the spec: an entry is expired when its TTL is set (nonzero)
and `now - createdAt > ttl`. -/
def CacheEntry.Expired {V : Type} (e : CacheEntry V) (now : ℚ) : Prop :=
  e.ttl ≠ 0 ∧ now - e.created_at > e.ttl

instance {V : Type} (e : CacheEntry V) (now : ℚ) : Decidable (e.Expired now) :=
  inferInstanceAs (Decidable (_ ∧ _))

/-- Look up the entry stored under a fingerprint in an association list. -/
def lookupEntry {V : Type} (l : List (CacheKey × CacheEntry V)) (k : CacheKey) :
    Option (CacheEntry V) :=
  (l.find? (fun p => decide (p.1 = k))).map (fun p => p.2)

/-- Remove every binding of a fingerprint from an association list. -/
def removeKey {V : Type} (l : List (CacheKey × CacheEntry V)) (k : CacheKey) :
    List (CacheKey × CacheEntry V) :=
  l.filter (fun p => decide (p.1 ≠ k))

/-- Modelled from the spec (missing module `strutex.cache.memory`): the bounded
volatile store.  The recency structure (Python `OrderedDict`) is modelled as a
list ordered least-recently-used first, most-recently-used last.  The hit and
miss counters are the `_hits`/`_misses` attributes read by the tests. -/
structure MemoryCache (V : Type) where
  cache : List (CacheKey × CacheEntry V)
  max_size : Nat
  ttl : ℚ
  hits : Nat
  misses : Nat
deriving DecidableEq

/-- Modelled from the spec: evict the least-recently-used entries (the front of
the recency list) until the size is at most `max` (the `while len > max_size:
popitem(last=False)` loop). -/
def evictToCapacity {A : Type} (max : Nat) : List A → List A
  | [] => []
  | x :: t => if t.length + 1 > max then evictToCapacity max t else x :: t

/-- Modelled from the spec (§4.2): `get` on the bounded volatile store.
Absent → miss counter increment; present but expired → remove, miss counter
increment; otherwise → mark most-recently-used, hit counter increment, return
the value. -/
def MemoryCache.get {V : Type} (s : MemoryCache V) (k : CacheKey) (now : ℚ) :
    Option V × MemoryCache V :=
  match lookupEntry s.cache k with
  | none => (none, { s with misses := s.misses + 1 })
  | some e =>
    if e.Expired now then
      (none, { s with cache := removeKey s.cache k, misses := s.misses + 1 })
    else
      (some e.value,
       { s with cache := removeKey s.cache k ++ [(k, e)], hits := s.hits + 1 })

/-- Modelled from the spec (§4.2): `set` on the bounded volatile store.
Insert/overwrite as most-recently-used, then evict least-recently-used entries
until the size is at most `max_size`; eviction touches no counter. -/
def MemoryCache.set {V : Type} (s : MemoryCache V) (k : CacheKey) (v : V)
    (ttlOpt : Option ℚ) (now : ℚ) : MemoryCache V :=
  let t := ttlOpt.getD s.ttl
  { s with cache := evictToCapacity s.max_size (removeKey s.cache k ++ [(k, ⟨v, now, t⟩)]) }

/-- Modelled from the spec (§4.2): `delete` removes the entry if present and
reports whether it was present. -/
def MemoryCache.delete {V : Type} (s : MemoryCache V) (k : CacheKey) :
    Bool × MemoryCache V :=
  match lookupEntry s.cache k with
  | none => (false, s)
  | some _ => (true, { s with cache := removeKey s.cache k })

/-- Modelled from the spec (§4.2): `cleanup_expired` removes every expired
entry, returns the removed count, and keeps the recency order of survivors. -/
def MemoryCache.cleanup_expired {V : Type} (s : MemoryCache V) (now : ℚ) :
    Nat × MemoryCache V :=
  let keep := s.cache.filter (fun p => decide (¬ p.2.Expired now))
  (s.cache.length - keep.length, { s with cache := keep })

/-- Modelled from the spec (§4.2): `clear` removes all entries and returns the
removed count; the hit/miss counters are not reset. -/
def MemoryCache.clear {V : Type} (s : MemoryCache V) : Nat × MemoryCache V :=
  (s.cache.length, { s with cache := [] })

/-- Modelled from the spec (§4.2): `stats` reports size, capacity, counters and
the derived hit rate (zero when there has been no access yet). -/
def MemoryCache.stats {V : Type} (s : MemoryCache V) : Nat × Nat × Nat × Nat × ℚ :=
  (s.cache.length, s.max_size, s.hits, s.misses,
   if s.hits + s.misses = 0 then 0 else (s.hits : ℚ) / ((s.hits : ℚ) + (s.misses : ℚ)))

/-- Modelled from the spec (missing module `strutex.cache.file`): the content
of one persisted entry file — either a parseable serialized record or raw
unparseable text (a corrupt file). -/
inductive FileData (V : Type) where
  | valid (e : CacheEntry V)
  | corrupt (raw : String)
deriving DecidableEq

/-- Modelled from the spec (missing module `strutex.cache.file`): the file name
for a fingerprint, derived deterministically from the fingerprint's canonical
string (the test derives it as `sha256(key.to_string()).hexdigest() + ".json"`;
the secondary digest is idealised, as above). -/
def fileNameFor (k : CacheKey) : String := k.to_string ++ ".json"

/-- Look up the content of a file name in a directory listing. -/
def lookupFile {V : Type} (l : List (String × FileData V)) (n : String) :
    Option (FileData V) :=
  (l.find? (fun p => decide (p.1 = n))).map (fun p => p.2)

/-- Remove a file name from a directory listing. -/
def removeFile {V : Type} (l : List (String × FileData V)) (n : String) :
    List (String × FileData V) :=
  l.filter (fun p => decide (p.1 ≠ n))

/-- Modelled from the spec (missing module `strutex.cache.file`): the
file-per-entry store.  `files` models the on-disk directory (shared by every
instance constructed over the same `cache_dir`); the counters live only for the
instance's lifetime. -/
structure FileCache (V : Type) where
  files : List (String × FileData V)
  ttl : ℚ
  hits : Nat
  misses : Nat
deriving DecidableEq

/-- Modelled from the spec (§4.3): `get` on the file-per-entry store.  File
absent → miss; present but unreadable/unparseable → treat as miss and remove
the corrupt file, never surface an error; present but expired → remove, miss;
otherwise hit.  The function is total: every failure mode is converted into a
miss result. -/
def FileCache.get {V : Type} (s : FileCache V) (k : CacheKey) (now : ℚ) :
    Option V × FileCache V :=
  let n := fileNameFor k
  match lookupFile s.files n with
  | none => (none, { s with misses := s.misses + 1 })
  | some (.corrupt _) =>
      (none, { s with files := removeFile s.files n, misses := s.misses + 1 })
  | some (.valid e) =>
      if e.Expired now then
        (none, { s with files := removeFile s.files n, misses := s.misses + 1 })
      else
        (some e.value, { s with hits := s.hits + 1 })

/-- Modelled from the spec (§4.3): `set` atomically replaces the target file
with a serialized `{value, createdAt, ttlSeconds}` record. -/
def FileCache.set {V : Type} (s : FileCache V) (k : CacheKey) (v : V)
    (ttlOpt : Option ℚ) (now : ℚ) : FileCache V :=
  let t := ttlOpt.getD s.ttl
  let n := fileNameFor k
  { s with files := removeFile s.files n ++ [(n, .valid ⟨v, now, t⟩)] }

/-- Modelled from the spec (§4.3): `delete` removes the entry file if present
and reports whether it existed. -/
def FileCache.delete {V : Type} (s : FileCache V) (k : CacheKey) :
    Bool × FileCache V :=
  let n := fileNameFor k
  match lookupFile s.files n with
  | none => (false, s)
  | some _ => (true, { s with files := removeFile s.files n })

/-- Modelled from the spec (§4.3): `cleanup_expired` removes every expired
entry file; unparseable files are treated as already expired. -/
def FileCache.cleanup_expired {V : Type} (s : FileCache V) (now : ℚ) :
    Nat × FileCache V :=
  let keep := s.files.filter (fun p =>
    match p.2 with
    | .valid e => decide (¬ e.Expired now)
    | .corrupt _ => false)
  (s.files.length - keep.length, { s with files := keep })

/-- Modelled from the spec (§4.3): `clear` removes every file in the directory
and returns the removed count. -/
def FileCache.clear {V : Type} (s : FileCache V) : Nat × FileCache V :=
  (s.files.length, { s with files := [] })

/-- Modelled from the spec (missing module `strutex.cache.sqlite`): one row of
the entries table, columns `value, created_at, ttl, last_access` (the `key`
column is the association-list key). -/
structure SQLRow (V : Type) where
  value : V
  created_at : ℚ
  ttl : ℚ
  last_access : ℚ
deriving DecidableEq

/-- Modelled from the spec: a row is expired when its TTL is set (nonzero) and
`now - created_at > ttl`. -/
def SQLRow.Expired {V : Type} (r : SQLRow V) (now : ℚ) : Prop :=
  r.ttl ≠ 0 ∧ now - r.created_at > r.ttl

instance {V : Type} (r : SQLRow V) (now : ℚ) : Decidable (r.Expired now) :=
  inferInstanceAs (Decidable (_ ∧ _))

/-- Look up a row by its `key` column. -/
def lookupRow {V : Type} (l : List (String × SQLRow V)) (ks : String) :
    Option (SQLRow V) :=
  (l.find? (fun p => decide (p.1 = ks))).map (fun p => p.2)

/-- Delete every row with the given `key` column. -/
def removeRow {V : Type} (l : List (String × SQLRow V)) (ks : String) :
    List (String × SQLRow V) :=
  l.filter (fun p => decide (p.1 ≠ ks))

/-- Update the `last_access` column of the rows with the given key. -/
def touchRow {V : Type} (l : List (String × SQLRow V)) (ks : String) (now : ℚ) :
    List (String × SQLRow V) :=
  l.map (fun p => if p.1 = ks then (p.1, { p.2 with last_access := now }) else p)

/-- The minimal `last_access` value occurring in a table (0 for the empty
table, which is never consulted). -/
def minLA {V : Type} : List (String × SQLRow V) → ℚ
  | [] => 0
  | [p] => p.2.last_access
  | p :: q :: t => min p.2.last_access (minLA (q :: t))

/-- Delete the first row holding the minimal `last_access` value (one step of
`DELETE ... ORDER BY last_access ASC LIMIT 1`). -/
def removeFirstMin {V : Type} : List (String × SQLRow V) → List (String × SQLRow V)
  | [] => []
  | [_] => []
  | p :: q :: t =>
      if p.2.last_access ≤ minLA (q :: t) then q :: t
      else p :: removeFirstMin (q :: t)

theorem removeFirstMin_length {V : Type} :
    ∀ l : List (String × SQLRow V), l ≠ [] →
      (removeFirstMin l).length + 1 = l.length := by
  intro l hl
  induction l with
  | nil => exact absurd rfl hl
  | cons p t ih =>
    match t with
    | [] => simp [removeFirstMin]
    | q :: t' =>
      rw [removeFirstMin]
      split
      · simp
      · have := ih (by simp)
        simpa [removeFirstMin] using this

/-- Modelled from the spec (§4.4): evict rows with the oldest `last_access`
until the row count is at or under the limit. -/
def evictOldest {V : Type} (max : Nat) (l : List (String × SQLRow V)) :
    List (String × SQLRow V) :=
  if l.length ≤ max then l else evictOldest max (removeFirstMin l)
termination_by l.length
decreasing_by
  have hne : l ≠ [] := by
    intro h
    subst h
    simp_all
  have := removeFirstMin_length l hne
  omega

/-- Modelled from the spec (missing module `strutex.cache.sqlite`): the
embedded relational store.  `rows` models the on-disk table (shared by every
instance constructed over the same `db_path`, and by concurrent instances);
counters live for the instance's lifetime.  Construction eagerly creates the
table, so a fresh instance over an existing path starts from the persisted
rows. -/
structure SQLiteCache (V : Type) where
  rows : List (String × SQLRow V)
  max_size : Nat
  ttl : ℚ
  hits : Nat
  misses : Nat
deriving DecidableEq

/-- Modelled from the spec (§4.4): `get` looks the row up by key; absent →
miss; expired → delete the row, miss; otherwise update `last_access`, hit. -/
def SQLiteCache.get {V : Type} (s : SQLiteCache V) (k : CacheKey) (now : ℚ) :
    Option V × SQLiteCache V :=
  let ks := k.to_string
  match lookupRow s.rows ks with
  | none => (none, { s with misses := s.misses + 1 })
  | some r =>
    if r.Expired now then
      (none, { s with rows := removeRow s.rows ks, misses := s.misses + 1 })
    else
      (some r.value, { s with rows := touchRow s.rows ks now, hits := s.hits + 1 })

/-- Modelled from the spec (§4.4): `set` upserts the row with `created_at` and
`last_access` set to now, then evicts oldest-`last_access` rows while the row
count exceeds `max_size`. -/
def SQLiteCache.set {V : Type} (s : SQLiteCache V) (k : CacheKey) (v : V)
    (ttlOpt : Option ℚ) (now : ℚ) : SQLiteCache V :=
  let t := ttlOpt.getD s.ttl
  let ks := k.to_string
  { s with rows := evictOldest s.max_size (removeRow s.rows ks ++ [(ks, ⟨v, now, t, now⟩)]) }

/-- Modelled from the spec (§4.4): `delete` removes the row by key and reports
whether it was present. -/
def SQLiteCache.delete {V : Type} (s : SQLiteCache V) (k : CacheKey) :
    Bool × SQLiteCache V :=
  let ks := k.to_string
  match lookupRow s.rows ks with
  | none => (false, s)
  | some _ => (true, { s with rows := removeRow s.rows ks })

/-- Modelled from the spec (§4.4): `cleanup_expired` deletes the expired rows
and returns the affected row count. -/
def SQLiteCache.cleanup_expired {V : Type} (s : SQLiteCache V) (now : ℚ) :
    Nat × SQLiteCache V :=
  let keep := s.rows.filter (fun p => decide (¬ p.2.Expired now))
  (s.rows.length - keep.length, { s with rows := keep })

/-- Modelled from the spec (§4.4): `clear` deletes all rows and returns the
affected row count. -/
def SQLiteCache.clear {V : Type} (s : SQLiteCache V) : Nat × SQLiteCache V :=
  (s.rows.length, { s with rows := [] })

/-! ## Helper lemmas -/

theorem getLast?_eq_some_mem {A : Type} :
    ∀ {l : List A} {a : A}, l.getLast? = some a → a ∈ l := by
  intro l
  induction l with
  | nil => intro a h; simp at h
  | cons x t ih =>
    intro a h
    match t with
    | [] =>
      simp [List.getLast?] at h
      simp [h]
    | y :: t' =>
      rw [List.getLast?_cons_cons] at h
      exact List.mem_cons_of_mem x (ih h)

theorem getLast?_cons_of_ne_nil {A : Type} {l : List A} (a : A) (h : l ≠ []) :
    (a :: l).getLast? = l.getLast? := by
  match l with
  | [] => exact absurd rfl h
  | b :: t => exact List.getLast?_cons_cons

theorem evictToCapacity_eq_drop {A : Type} (max : Nat) :
    ∀ l : List A, evictToCapacity max l = l.drop (l.length - max) := by
  intro l
  induction l with
  | nil => simp [evictToCapacity]
  | cons x t ih =>
    rw [evictToCapacity]
    split
    · rw [ih]
      have hlen : (x :: t).length - max = (t.length - max) + 1 := by
        simp only [List.length_cons]
        omega
      rw [hlen, List.drop_succ_cons]
    · have hlen : (x :: t).length - max = 0 := by
        simp only [List.length_cons]
        omega
      rw [hlen, List.drop_zero]

theorem mem_removeKey {V : Type} {l : List (CacheKey × CacheEntry V)}
    {k : CacheKey} {p : CacheKey × CacheEntry V} (h : p ∈ removeKey l k) :
    p ∈ l ∧ p.1 ≠ k := by
  have := List.mem_filter.mp h
  exact ⟨this.1, by simpa using this.2⟩

theorem find_eq_of_unique {A : Type} (p : A → Bool) :
    ∀ (l : List A) (a : A), a ∈ l → p a = true →
      (∀ b ∈ l, p b = true → b = a) → l.find? p = some a := by
  intro l
  induction l with
  | nil => intro a ha; simp at ha
  | cons x t ih =>
    intro a ha hpa huniq
    by_cases hx : p x = true
    · rw [List.find?_cons_of_pos _ hx]
      rw [huniq x (List.mem_cons_self x t) hx]
    · rw [List.find?_cons_of_neg _ hx]
      have hat : a ∈ t := by
        rcases List.mem_cons.mp ha with h | h
        · subst h
          exact absurd hpa hx
        · exact h
      exact ih a hat hpa (fun b hb hpb => huniq b (List.mem_cons_of_mem x hb) hpb)

theorem lookupEntry_insert_evict {V : Type} (l : List (CacheKey × CacheEntry V))
    (k : CacheKey) (e : CacheEntry V) (max : Nat) (hmax : 1 ≤ max) :
    lookupEntry (evictToCapacity max (removeKey l k ++ [(k, e)])) k = some e := by
  rw [evictToCapacity_eq_drop]
  have hlen : (removeKey l k ++ [(k, e)]).length = (removeKey l k).length + 1 := by simp
  have hd : (removeKey l k ++ [(k, e)]).length - max ≤ (removeKey l k).length := by
    rw [hlen]
    omega
  rw [List.drop_append_of_le_length hd]
  unfold lookupEntry
  rw [List.find?_append]
  have hnone : ((removeKey l k).drop ((removeKey l k ++ [(k, e)]).length - max)).find?
      (fun p => decide (p.1 = k)) = none := by
    rw [List.find?_eq_none]
    intro x hx
    have hx' : x ∈ removeKey l k := List.mem_of_mem_drop hx
    have hne : x.1 ≠ k := (mem_removeKey hx').2
    simp [hne]
  rw [hnone]
  simp

theorem mem_removeFile {V : Type} {l : List (String × FileData V)}
    {n : String} {p : String × FileData V} (h : p ∈ removeFile l n) :
    p ∈ l ∧ p.1 ≠ n := by
  have := List.mem_filter.mp h
  exact ⟨this.1, by simpa using this.2⟩

theorem lookupFile_insert {V : Type} (l : List (String × FileData V))
    (n : String) (d : FileData V) :
    lookupFile (removeFile l n ++ [(n, d)]) n = some d := by
  unfold lookupFile
  rw [List.find?_append]
  have hnone : (removeFile l n).find? (fun p => decide (p.1 = n)) = none := by
    rw [List.find?_eq_none]
    intro x hx
    have hne : x.1 ≠ n := (mem_removeFile hx).2
    simp [hne]
  rw [hnone]
  simp

theorem mem_removeRow {V : Type} {l : List (String × SQLRow V)}
    {ks : String} {p : String × SQLRow V} (h : p ∈ removeRow l ks) :
    p ∈ l ∧ p.1 ≠ ks := by
  have := List.mem_filter.mp h
  exact ⟨this.1, by simpa using this.2⟩

theorem minLA_le {V : Type} :
    ∀ (l : List (String × SQLRow V)) (p : String × SQLRow V), p ∈ l →
      minLA l ≤ p.2.last_access := by
  intro l
  induction l with
  | nil => intro p hp; simp at hp
  | cons a t ih =>
    intro p hp
    match t with
    | [] =>
      have : p = a := by simpa using hp
      subst this
      simp [minLA]
    | b :: t' =>
      rw [minLA]
      rcases List.mem_cons.mp hp with h | h
      · subst h
        exact min_le_left _ _
      · exact le_trans (min_le_right _ _) (ih p h)

theorem removeFirstMin_sublist {V : Type} :
    ∀ l : List (String × SQLRow V), (removeFirstMin l).Sublist l := by
  intro l
  induction l with
  | nil => simp [removeFirstMin]
  | cons a t ih =>
    match t with
    | [] => simp [removeFirstMin]
    | b :: t' =>
      rw [removeFirstMin]
      split
      · exact List.sublist_cons_self a (b :: t')
      · exact List.Sublist.cons₂ a ih

theorem removeFirstMin_getLast {V : Type} :
    ∀ (l : List (String × SQLRow V)) (p : String × SQLRow V), 2 ≤ l.length →
      (∀ q ∈ l, q.2.last_access ≤ p.2.last_access) → l.getLast? = some p →
      (removeFirstMin l).getLast? = some p := by
  intro l
  induction l with
  | nil => intro p h2; simp at h2
  | cons a t ih =>
    intro p h2 hle hlast
    match t with
    | [] => simp at h2
    | b :: t' =>
      rw [removeFirstMin]
      split
      · rwa [List.getLast?_cons_cons] at hlast
      · rename_i hnot
        match t' with
        | [] =>
          exfalso
          have hab : p = b := by
            simp [List.getLast?, List.getLast] at hlast
            simp [hlast]
          have ha : a.2.last_access ≤ p.2.last_access :=
            hle a (List.mem_cons_self a [b])
          rw [hab] at ha
          exact hnot (by simpa [minLA] using ha)
        | c :: t'' =>
          have h2' : 2 ≤ (b :: c :: t'').length := by simp
          have hle' : ∀ q ∈ b :: c :: t'', q.2.last_access ≤ p.2.last_access :=
            fun q hq => hle q (List.mem_cons_of_mem a hq)
          have hlast' : (b :: c :: t'').getLast? = some p := by
            rwa [List.getLast?_cons_cons] at hlast
          have hres := ih p h2' hle' hlast'
          have hne : removeFirstMin (b :: c :: t'') ≠ [] := by
            have := removeFirstMin_length (V := V) (b :: c :: t'') (by simp)
            intro hcon
            rw [hcon] at this
            simp at this
          rw [getLast?_cons_of_ne_nil a hne]
          exact hres

theorem evictOldest_getLast_sublist {V : Type} (max : Nat) (hmax : 1 ≤ max) :
    ∀ (n : Nat) (l : List (String × SQLRow V)) (p : String × SQLRow V),
      l.length ≤ n →
      (∀ q ∈ l, q.2.last_access ≤ p.2.last_access) → l.getLast? = some p →
      (evictOldest max l).getLast? = some p ∧ (evictOldest max l).Sublist l := by
  intro n
  induction n with
  | zero =>
    intro l p hlen hle hlast
    match l with
    | [] => simp at hlast
    | x :: t => simp at hlen
  | succ n ih =>
    intro l p hlen hle hlast
    rw [evictOldest]
    split
    · exact ⟨hlast, List.Sublist.refl l⟩
    · rename_i hgt
      have h2 : 2 ≤ l.length := by omega
      have hne : l ≠ [] := by
        intro hcon
        subst hcon
        simp at h2
      have hrfmlen := removeFirstMin_length (V := V) l hne
      have hsub := removeFirstMin_sublist (V := V) l
      have hlast' := removeFirstMin_getLast l p h2 hle hlast
      have hle' : ∀ q ∈ removeFirstMin l, q.2.last_access ≤ p.2.last_access :=
        fun q hq => hle q (List.Sublist.mem hq hsub)
      have hlen' : (removeFirstMin l).length ≤ n := by omega
      obtain ⟨ha, hb⟩ := ih (removeFirstMin l) p hlen' hle' hlast'
      exact ⟨ha, List.Sublist.trans hb hsub⟩

theorem lookupRow_insert_evict {V : Type} (l : List (String × SQLRow V))
    (ks : String) (r : SQLRow V) (max : Nat) (hmax : 1 ≤ max)
    (hmono : ∀ q ∈ l, q.2.last_access ≤ r.last_access) :
    lookupRow (evictOldest max (removeRow l ks ++ [(ks, r)])) ks = some r := by
  have hle : ∀ q ∈ removeRow l ks ++ [(ks, r)],
      q.2.last_access ≤ (ks, r).2.last_access := by
    intro q hq
    rcases List.mem_append.mp hq with h | h
    · exact hmono q (mem_removeRow h).1
    · have : q = (ks, r) := by simpa using h
      subst this
      exact le_refl _
  have hlast : (removeRow l ks ++ [(ks, r)]).getLast? = some (ks, r) :=
    List.getLast?_concat _
  obtain ⟨hglast, hsub⟩ := evictOldest_getLast_sublist max hmax
    (removeRow l ks ++ [(ks, r)]).length (removeRow l ks ++ [(ks, r)]) (ks, r)
    (le_refl _) hle hlast
  have hmem : (ks, r) ∈ evictOldest max (removeRow l ks ++ [(ks, r)]) :=
    getLast?_eq_some_mem hglast
  have huniq : ∀ b ∈ evictOldest max (removeRow l ks ++ [(ks, r)]),
      (fun p => decide (p.1 = ks)) b = true → b = (ks, r) := by
    intro b hb hpb
    have hbl : b ∈ removeRow l ks ++ [(ks, r)] := List.Sublist.mem hb hsub
    rcases List.mem_append.mp hbl with h | h
    · exact absurd (by simpa using hpb) (mem_removeRow h).2
    · simpa using h
  unfold lookupRow
  rw [find_eq_of_unique _ _ (ks, r) hmem (by simp) huniq]
  rfl

theorem entry_not_expired_same_instant {V : Type} (v : V) (now t : ℚ)
    (ht : 0 ≤ t) : ¬ (CacheEntry.mk v now t).Expired now := by
  intro h
  simp only [CacheEntry.Expired] at h
  obtain ⟨h1, h2⟩ := h
  simp only [sub_self] at h2
  linarith

theorem row_not_expired_same_instant {V : Type} (v : V) (now t la : ℚ)
    (ht : 0 ≤ t) : ¬ (SQLRow.mk v now t la).Expired now := by
  intro h
  simp only [SQLRow.Expired] at h
  obtain ⟨h1, h2⟩ := h
  simp only [sub_self] at h2
  linarith

theorem memory_get_of_lookup {V : Type} (s : MemoryCache V) (k : CacheKey)
    (e : CacheEntry V) (now : ℚ) (hlook : lookupEntry s.cache k = some e)
    (hnexp : ¬ e.Expired now) : (s.get k now).1 = some e.value := by
  simp only [MemoryCache.get, hlook]
  rw [if_neg hnexp]

theorem memory_set_lookup {V : Type} (s : MemoryCache V) (k : CacheKey) (v : V)
    (ttlOpt : Option ℚ) (now : ℚ) (hmax : 1 ≤ s.max_size) :
    lookupEntry ((s.set k v ttlOpt now).cache) k =
      some (CacheEntry.mk v now (ttlOpt.getD s.ttl)) := by
  simp only [MemoryCache.set]
  exact lookupEntry_insert_evict s.cache k _ s.max_size hmax

theorem file_get_of_lookup {V : Type} (s : FileCache V) (k : CacheKey)
    (e : CacheEntry V) (now : ℚ)
    (hlook : lookupFile s.files (fileNameFor k) = some (.valid e))
    (hnexp : ¬ e.Expired now) : (s.get k now).1 = some e.value := by
  simp only [FileCache.get, hlook]
  rw [if_neg hnexp]

theorem file_set_lookup {V : Type} (s : FileCache V) (k : CacheKey) (v : V)
    (ttlOpt : Option ℚ) (now : ℚ) :
    lookupFile ((s.set k v ttlOpt now).files) (fileNameFor k) =
      some (.valid (CacheEntry.mk v now (ttlOpt.getD s.ttl))) := by
  simp only [FileCache.set]
  exact lookupFile_insert s.files (fileNameFor k) _

theorem sqlite_get_of_lookup {V : Type} (s : SQLiteCache V) (k : CacheKey)
    (r : SQLRow V) (now : ℚ) (hlook : lookupRow s.rows k.to_string = some r)
    (hnexp : ¬ r.Expired now) : (s.get k now).1 = some r.value := by
  simp only [SQLiteCache.get, hlook]
  rw [if_neg hnexp]

theorem sqlite_set_lookup {V : Type} (s : SQLiteCache V) (k : CacheKey) (v : V)
    (ttlOpt : Option ℚ) (now : ℚ) (hmax : 1 ≤ s.max_size)
    (hmono : ∀ q ∈ s.rows, q.2.last_access ≤ now) :
    lookupRow ((s.set k v ttlOpt now).rows) k.to_string =
      some (SQLRow.mk v now (ttlOpt.getD s.ttl) now) := by
  simp only [SQLiteCache.set]
  exact lookupRow_insert_evict s.rows k.to_string _ s.max_size hmax hmono

theorem lookupEntry_removeKey_self {V : Type} (l : List (CacheKey × CacheEntry V))
    (k : CacheKey) : lookupEntry (removeKey l k) k = none := by
  unfold lookupEntry
  have hnone : (removeKey l k).find? (fun p => decide (p.1 = k)) = none := by
    rw [List.find?_eq_none]
    intro x hx
    simp [(mem_removeKey hx).2]
  rw [hnone]
  rfl

theorem lookupFile_removeFile_self {V : Type} (l : List (String × FileData V))
    (n : String) : lookupFile (removeFile l n) n = none := by
  unfold lookupFile
  have hnone : (removeFile l n).find? (fun p => decide (p.1 = n)) = none := by
    rw [List.find?_eq_none]
    intro x hx
    simp [(mem_removeFile hx).2]
  rw [hnone]
  rfl

theorem lookupRow_removeRow_self {V : Type} (l : List (String × SQLRow V))
    (ks : String) : lookupRow (removeRow l ks) ks = none := by
  unfold lookupRow
  have hnone : (removeRow l ks).find? (fun p => decide (p.1 = ks)) = none := by
    rw [List.find?_eq_none]
    intro x hx
    simp [(mem_removeRow hx).2]
  rw [hnone]
  rfl

theorem removeKey_length_lt {V : Type} {l : List (CacheKey × CacheEntry V)}
    {k : CacheKey} {e : CacheEntry V} (h : lookupEntry l k = some e) :
    (removeKey l k).length < l.length := by
  unfold lookupEntry at h
  obtain ⟨p, hfind, hval⟩ := Option.map_eq_some'.mp h
  have hmem : p ∈ l := List.mem_of_find?_eq_some hfind
  have hk : p.1 = k := by simpa using List.find?_some hfind
  have hsub : (removeKey l k).Sublist l := List.filter_sublist l
  have hle : (removeKey l k).length ≤ l.length := hsub.length_le
  rcases lt_or_eq_of_le hle with hlt | heq
  · exact hlt
  · exfalso
    have heql : removeKey l k = l := hsub.eq_of_length heq
    have : p ∈ removeKey l k := by rw [heql]; exact hmem
    exact (mem_removeKey this).2 hk

/-! ## Concrete fixtures used by the witnesses and test scenarios -/

/-- A filesystem holding no files, as seen by the tests that derive keys from
paths of nonexistent documents (`CacheKey.create("doc.pdf", ...)`). -/
def emptyFS : String → Option (List Nat) := fun _ => none

/-- A filesystem holding identical bytes under two distinct paths. -/
def twoPathFS : String → Option (List Nat) :=
  fun p => if p = "a.txt" ∨ p = "b.txt" then some [99, 111] else none

/-- A filesystem whose every path holds the byte 1. -/
def fsBytes1 : String → Option (List Nat) := fun _ => some [1]

/-- A filesystem whose every path holds the byte 2. -/
def fsBytes2 : String → Option (List Nat) := fun _ => some [2]

/-- The fingerprint the tests derive for a nonexistent document `doc.pdf`. -/
def k0 : CacheKey := CacheKey.create emptyFS "doc.pdf" "p" [] "g" ""

/-- An empty bounded volatile store with capacity 2 and no default TTL. -/
def memS : MemoryCache Nat := ⟨[], 2, 0, 0, 0⟩

/-- An empty bounded volatile store with capacity 2 and default TTL 0.1. -/
def memS10 : MemoryCache Nat := ⟨[], 2, 1/10, 0, 0⟩

/-- An empty file-per-entry store with no default TTL. -/
def fileS : FileCache Nat := ⟨[], 0, 0, 0⟩

/-- An empty embedded relational store with capacity 2 and no default TTL. -/
def sqlS : SQLiteCache Nat := ⟨[], 2, 0, 0, 0⟩

/-! ## Claims -/

/-- C1: fingerprint derivation is deterministic and equality-sound — for every
fixed input tuple, repeated calls to `CacheKey.create` yield equal keys with
equal derived integer hashes and equal canonical string forms; two fingerprints
are equal iff all five components are equal; equal fingerprints always hash
identically. -/
theorem cacheKey_deterministic_equality_sound :
    (∀ (fs : String → Option (List Nat)) (path prompt : String)
        (schema : List (String × Nat)) (provider model : String),
        CacheKey.create fs path prompt schema provider model =
          CacheKey.create fs path prompt schema provider model ∧
        (CacheKey.create fs path prompt schema provider model).hashInt =
          (CacheKey.create fs path prompt schema provider model).hashInt ∧
        (CacheKey.create fs path prompt schema provider model).to_string =
          (CacheKey.create fs path prompt schema provider model).to_string) ∧
    (∀ k1 k2 : CacheKey, k1 = k2 ↔
        k1.file_hash = k2.file_hash ∧ k1.prompt_hash = k2.prompt_hash ∧
        k1.schema_hash = k2.schema_hash ∧ k1.provider = k2.provider ∧
        k1.model = k2.model) ∧
    (∀ k1 k2 : CacheKey, k1 = k2 → k1.hashInt = k2.hashInt) := by
  refine ⟨fun fs path prompt schema provider model => ⟨rfl, rfl, rfl⟩, ?_, ?_⟩
  · intro k1 k2
    constructor
    · intro h
      subst h
      exact ⟨rfl, rfl, rfl, rfl, rfl⟩
    · rintro ⟨h1, h2, h3, h4, h5⟩
      cases k1
      cases k2
      simp_all
  · intro k1 k2 h
    rw [h]

/-- Witness for C1 at concrete inputs: the two component-wise equal keys built
by `CacheKey.create emptyFS "doc.pdf" "p" [] "g" ""` are equal and hash
identically. -/
theorem cacheKey_deterministic_equality_sound_witness :
    (k0 = k0 ∧ k0.hashInt = k0.hashInt ∧ k0.to_string = k0.to_string) ∧
    (k0 = CacheKey.mk ("doc.pdf".toList.map Char.toNat) "p" "\x7b\x7d" "g" "") ∧
    k0.hashInt = (CacheKey.mk ("doc.pdf".toList.map Char.toNat) "p" "\x7b\x7d" "g" "").hashInt :=
  ⟨cacheKey_deterministic_equality_sound.1 emptyFS "doc.pdf" "p" [] "g" "",
   (cacheKey_deterministic_equality_sound.2.1 k0 _).mpr
     ⟨by decide, by decide, by decide, by decide, by decide⟩,
   cacheKey_deterministic_equality_sound.2.2 k0 _
     ((cacheKey_deterministic_equality_sound.2.1 k0 _).mpr
       ⟨by decide, by decide, by decide, by decide, by decide⟩)⟩

/-- C7: changing any one of the five fingerprint components while holding the
other four fixed yields an unequal fingerprint — stated for the document
bytes, the prompt text, the canonical schema serialization, the normalized
provider and the normalized model, together with the spec's two concrete
examples (`derive(b,"A",\x7b\x7d,"g") ≠ derive(b,"B",\x7b\x7d,"g")` and
`derive(b,"A",\x7b\x7d,"g") ≠ derive(b,"A",\x7ba:1\x7d,"g")`). -/
theorem cacheKey_discrimination :
    (∀ (fs1 fs2 : String → Option (List Nat)) (path : String) (b1 b2 : List Nat)
        (prompt : String) (schema : List (String × Nat)) (provider model : String),
        fs1 path = some b1 → fs2 path = some b2 → b1 ≠ b2 →
        CacheKey.create fs1 path prompt schema provider model ≠
          CacheKey.create fs2 path prompt schema provider model) ∧
    (∀ (fs : String → Option (List Nat)) (path p1 p2 : String)
        (schema : List (String × Nat)) (provider model : String), p1 ≠ p2 →
        CacheKey.create fs path p1 schema provider model ≠
          CacheKey.create fs path p2 schema provider model) ∧
    (∀ (fs : String → Option (List Nat)) (path prompt : String)
        (s1 s2 : List (String × Nat)) (provider model : String),
        canonicalSchema s1 ≠ canonicalSchema s2 →
        CacheKey.create fs path prompt s1 provider model ≠
          CacheKey.create fs path prompt s2 provider model) ∧
    (∀ (fs : String → Option (List Nat)) (path prompt : String)
        (schema : List (String × Nat)) (pr1 pr2 model : String),
        lowerString pr1 ≠ lowerString pr2 →
        CacheKey.create fs path prompt schema pr1 model ≠
          CacheKey.create fs path prompt schema pr2 model) ∧
    (∀ (fs : String → Option (List Nat)) (path prompt : String)
        (schema : List (String × Nat)) (provider m1 m2 : String),
        lowerString m1 ≠ lowerString m2 →
        CacheKey.create fs path prompt schema provider m1 ≠
          CacheKey.create fs path prompt schema provider m2) ∧
    (∀ (fs : String → Option (List Nat)) (path : String),
        CacheKey.create fs path "A" [] "g" "" ≠
          CacheKey.create fs path "B" [] "g" "") ∧
    (∀ (fs : String → Option (List Nat)) (path : String),
        CacheKey.create fs path "A" [] "g" "" ≠
          CacheKey.create fs path "A" [("a", 1)] "g" "") := by
  refine ⟨?_, ?_, ?_, ?_, ?_, ?_, ?_⟩
  · intro fs1 fs2 path b1 b2 prompt schema provider model h1 h2 hne h
    apply hne
    have := congrArg CacheKey.file_hash h
    simpa [CacheKey.create, digestBytes, h1, h2] using this
  · intro fs path p1 p2 schema provider model hne h
    apply hne
    have := congrArg CacheKey.prompt_hash h
    simpa [CacheKey.create, digestString] using this
  · intro fs path prompt s1 s2 provider model hne h
    apply hne
    have := congrArg CacheKey.schema_hash h
    simpa [CacheKey.create, digestString] using this
  · intro fs path prompt schema pr1 pr2 model hne h
    apply hne
    have := congrArg CacheKey.provider h
    simpa [CacheKey.create] using this
  · intro fs path prompt schema provider m1 m2 hne h
    apply hne
    have := congrArg CacheKey.model h
    simpa [CacheKey.create] using this
  · intro fs path h
    have := congrArg CacheKey.prompt_hash h
    simp [CacheKey.create, digestString] at this
  · intro fs path h
    have := congrArg CacheKey.schema_hash h
    simp only [CacheKey.create, digestString] at this
    exact absurd this (by decide)

/-- Witness for C7 at concrete inputs: each of the five component changes, and
the spec's two examples, separate concrete keys. -/
theorem cacheKey_discrimination_witness :
    (CacheKey.create fsBytes1 "f" "p" [] "g" "" ≠
      CacheKey.create fsBytes2 "f" "p" [] "g" "") ∧
    (CacheKey.create emptyFS "f" "p1" [] "g" "" ≠
      CacheKey.create emptyFS "f" "p2" [] "g" "") ∧
    (CacheKey.create emptyFS "f" "p" [] "g" "" ≠
      CacheKey.create emptyFS "f" "p" [("a", 1)] "g" "") ∧
    (CacheKey.create emptyFS "f" "p" [] "g1" "" ≠
      CacheKey.create emptyFS "f" "p" [] "g2" "") ∧
    (CacheKey.create emptyFS "f" "p" [] "g" "m1" ≠
      CacheKey.create emptyFS "f" "p" [] "g" "m2") ∧
    (CacheKey.create emptyFS "f" "A" [] "g" "" ≠
      CacheKey.create emptyFS "f" "B" [] "g" "") ∧
    (CacheKey.create emptyFS "f" "A" [] "g" "" ≠
      CacheKey.create emptyFS "f" "A" [("a", 1)] "g" "") :=
  ⟨cacheKey_discrimination.1 fsBytes1 fsBytes2 "f" [1] [2] "p" [] "g" ""
      rfl rfl (by decide),
   cacheKey_discrimination.2.1 emptyFS "f" "p1" "p2" [] "g" "" (by decide),
   cacheKey_discrimination.2.2.1 emptyFS "f" "p" [] [("a", 1)] "g" "" (by decide),
   cacheKey_discrimination.2.2.2.1 emptyFS "f" "p" [] "g1" "g2" "" (by decide),
   cacheKey_discrimination.2.2.2.2.1 emptyFS "f" "p" [] "g" "m1" "m2" (by decide),
   cacheKey_discrimination.2.2.2.2.2.1 emptyFS "f",
   cacheKey_discrimination.2.2.2.2.2.2 emptyFS "f"⟩

/-- C8: content addressing — the fingerprint's content hash is the digest of
the document's raw bytes, not of its path, so two distinct paths whose files
contain identical bytes (with the other four inputs identical) yield equal
fingerprints. -/
theorem cacheKey_content_addressing :
    ∀ (fs : String → Option (List Nat)) (p1 p2 : String) (b : List Nat)
      (prompt : String) (schema : List (String × Nat)) (provider model : String),
      p1 ≠ p2 → fs p1 = some b → fs p2 = some b →
      CacheKey.create fs p1 prompt schema provider model =
        CacheKey.create fs p2 prompt schema provider model := by
  intro fs p1 p2 b prompt schema provider model hne h1 h2
  simp [CacheKey.create, h1, h2]

/-- Witness for C8: the two distinct paths `a.txt` and `b.txt` of `twoPathFS`
hold identical bytes and produce equal fingerprints. -/
theorem cacheKey_content_addressing_witness :
    CacheKey.create twoPathFS "a.txt" "p" [] "g" "" =
      CacheKey.create twoPathFS "b.txt" "p" [] "g" "" :=
  cacheKey_content_addressing twoPathFS "a.txt" "b.txt" [99, 111] "p" [] "g" ""
    (by decide) (by decide) (by decide)

/-- C10: `CacheKey.create` is total over file paths — for a path at which no
file exists it still returns a well-defined fingerprint (falling back to
digesting the path string), and repeated calls with the same arguments yield
equal, identically-hashing fingerprints. -/
theorem cacheKey_total_on_missing_paths :
    ∀ (fs : String → Option (List Nat)) (path prompt : String)
      (schema : List (String × Nat)) (provider model : String),
      fs path = none →
      CacheKey.create fs path prompt schema provider model =
        CacheKey.mk (path.toList.map Char.toNat) (digestString prompt)
          (digestString (canonicalSchema schema)) (lowerString provider)
          (lowerString model) ∧
      CacheKey.create fs path prompt schema provider model =
        CacheKey.create fs path prompt schema provider model ∧
      (CacheKey.create fs path prompt schema provider model).hashInt =
        (CacheKey.create fs path prompt schema provider model).hashInt := by
  intro fs path prompt schema provider model h
  refine ⟨?_, rfl, rfl⟩
  simp [CacheKey.create, digestBytes, h]

/-- Witness for C10: the tests' key for the nonexistent path `doc.pdf` is the
explicit fallback fingerprint, and repeated derivation agrees. -/
theorem cacheKey_total_on_missing_paths_witness :
    CacheKey.create emptyFS "doc.pdf" "p" [] "g" "" =
      CacheKey.mk ("doc.pdf".toList.map Char.toNat) (digestString "p")
        (digestString (canonicalSchema [])) (lowerString "g") (lowerString "") ∧
    CacheKey.create emptyFS "doc.pdf" "p" [] "g" "" =
      CacheKey.create emptyFS "doc.pdf" "p" [] "g" "" ∧
    (CacheKey.create emptyFS "doc.pdf" "p" [] "g" "").hashInt =
      (CacheKey.create emptyFS "doc.pdf" "p" [] "g" "").hashInt :=
  cacheKey_total_on_missing_paths emptyFS "doc.pdf" "p" [] "g" "" rfl

/-- C2: round-trip — on each of the three backends, `set(k, v)` followed
immediately by `get(k)` (same instant) returns `v` unchanged, for every key
and every value.  The instance is assumed sensibly configured: a positive
capacity where the backend is bounded (a zero-capacity bound would evict the
fresh entry by the eviction rule itself) and a nonnegative effective TTL; the
relational store's recorded access times are assumed not to lie in the
future. -/
theorem backend_roundtrip :
    (∀ (V : Type) (s : MemoryCache V) (k : CacheKey) (v : V)
        (ttlOpt : Option ℚ) (now : ℚ),
        1 ≤ s.max_size → 0 ≤ ttlOpt.getD s.ttl →
        ((s.set k v ttlOpt now).get k now).1 = some v) ∧
    (∀ (V : Type) (s : FileCache V) (k : CacheKey) (v : V)
        (ttlOpt : Option ℚ) (now : ℚ),
        0 ≤ ttlOpt.getD s.ttl →
        ((s.set k v ttlOpt now).get k now).1 = some v) ∧
    (∀ (V : Type) (s : SQLiteCache V) (k : CacheKey) (v : V)
        (ttlOpt : Option ℚ) (now : ℚ),
        1 ≤ s.max_size → 0 ≤ ttlOpt.getD s.ttl →
        (∀ q ∈ s.rows, q.2.last_access ≤ now) →
        ((s.set k v ttlOpt now).get k now).1 = some v) := by
  refine ⟨?_, ?_, ?_⟩
  · intro V s k v ttlOpt now hmax httl
    exact memory_get_of_lookup _ k _ now (memory_set_lookup s k v ttlOpt now hmax)
      (entry_not_expired_same_instant v now _ httl)
  · intro V s k v ttlOpt now httl
    exact file_get_of_lookup _ k _ now (file_set_lookup s k v ttlOpt now)
      (entry_not_expired_same_instant v now _ httl)
  · intro V s k v ttlOpt now hmax httl hmono
    exact sqlite_get_of_lookup _ k _ now
      (sqlite_set_lookup s k v ttlOpt now hmax hmono)
      (row_not_expired_same_instant v now _ now httl)

/-- Witness for C2 on concrete empty stores: storing 7 under the tests' key
and reading it back immediately returns 7 on all three backends. -/
theorem backend_roundtrip_witness :
    ((memS.set k0 7 none 0).get k0 0).1 = some 7 ∧
    ((fileS.set k0 7 none 0).get k0 0).1 = some 7 ∧
    ((sqlS.set k0 7 none 0).get k0 0).1 = some 7 :=
  ⟨backend_roundtrip.1 Nat memS k0 7 none 0 (by decide) (by decide),
   backend_roundtrip.2.1 Nat fileS k0 7 none 0 (by decide),
   backend_roundtrip.2.2 Nat sqlS k0 7 none 0 (by decide) (by decide)
     (by intro q hq; simp [sqlS] at hq)⟩

/-- C6: durability — a value stored through one file-per-entry or relational
store instance is returned by `get` on a freshly constructed instance over the
same directory/database (modelled as an instance sharing the persisted
`files`/`rows` state but with arbitrary fresh counters and configuration), and
this covers two simultaneously live instances over the same path, since the
second instance's counters and configuration are arbitrary. -/
theorem durable_fresh_instance_get :
    (∀ (V : Type) (s : FileCache V) (k : CacheKey) (v : V) (ttlOpt : Option ℚ)
        (now : ℚ) (t2 : ℚ) (h2 m2 : Nat),
        0 ≤ ttlOpt.getD s.ttl →
        ((FileCache.mk ((s.set k v ttlOpt now).files) t2 h2 m2).get k now).1 =
          some v) ∧
    (∀ (V : Type) (s : SQLiteCache V) (k : CacheKey) (v : V) (ttlOpt : Option ℚ)
        (now : ℚ) (ms2 : Nat) (t2 : ℚ) (h2 m2 : Nat),
        1 ≤ s.max_size → 0 ≤ ttlOpt.getD s.ttl →
        (∀ q ∈ s.rows, q.2.last_access ≤ now) →
        ((SQLiteCache.mk ((s.set k v ttlOpt now).rows) ms2 t2 h2 m2).get k now).1 =
          some v) := by
  constructor
  · intro V s k v ttlOpt now t2 h2 m2 httl
    exact file_get_of_lookup (FileCache.mk ((s.set k v ttlOpt now).files) t2 h2 m2)
      k _ now (file_set_lookup s k v ttlOpt now)
      (entry_not_expired_same_instant v now _ httl)
  · intro V s k v ttlOpt now ms2 t2 h2 m2 hmax httl hmono
    exact sqlite_get_of_lookup
      (SQLiteCache.mk ((s.set k v ttlOpt now).rows) ms2 t2 h2 m2) k _ now
      (sqlite_set_lookup s k v ttlOpt now hmax hmono)
      (row_not_expired_same_instant v now _ now httl)

/-- Witness for C6: a fresh zero-counter instance over the directory/database
written by the first instance returns the stored value. -/
theorem durable_fresh_instance_get_witness :
    ((FileCache.mk ((fileS.set k0 7 none 0).files) 0 0 0).get k0 0).1 = some 7 ∧
    ((SQLiteCache.mk ((sqlS.set k0 7 none 0).rows) 2 0 0 0).get k0 0).1 = some 7 :=
  ⟨durable_fresh_instance_get.1 Nat fileS k0 7 none 0 0 0 0 (by decide),
   durable_fresh_instance_get.2 Nat sqlS k0 7 none 0 2 0 0 0 (by decide)
     (by decide) (by intro q hq; simp [sqlS] at hq)⟩

/-- C5: corrupt-entry resilience — when the file at the expected location for
a key is unreadable/unparseable, `FileCache.get` returns a miss (`none`),
counts a miss, and removes the corrupt file; the operation is a total function
(every failure mode is converted into a miss result rather than an error
surfaced to the caller). -/
theorem file_corrupt_entry_miss :
    ∀ (V : Type) (s : FileCache V) (k : CacheKey) (raw : String) (now : ℚ),
      lookupFile s.files (fileNameFor k) = some (.corrupt raw) →
      (s.get k now).1 = none ∧
      (s.get k now).2.misses = s.misses + 1 ∧
      lookupFile ((s.get k now).2.files) (fileNameFor k) = none := by
  intro V s k raw now hlook
  simp only [FileCache.get, hlook]
  exact ⟨trivial, trivial, lookupFile_removeFile_self s.files (fileNameFor k)⟩

/-- Witness for C5: a directory holding unparseable text at the expected file
name for the tests' key yields a miss, a miss count of 1 and removal. -/
theorem file_corrupt_entry_miss_witness :
    ((FileCache.mk [(fileNameFor k0, FileData.corrupt "invalid json")]
        (0 : ℚ) 0 0 : FileCache Nat).get k0 0).1 = none ∧
    ((FileCache.mk [(fileNameFor k0, FileData.corrupt "invalid json")]
        (0 : ℚ) 0 0 : FileCache Nat).get k0 0).2.misses = 0 + 1 ∧
    lookupFile (((FileCache.mk [(fileNameFor k0, FileData.corrupt "invalid json")]
        (0 : ℚ) 0 0 : FileCache Nat).get k0 0).2.files) (fileNameFor k0) = none :=
  file_corrupt_entry_miss Nat
    (FileCache.mk [(fileNameFor k0, FileData.corrupt "invalid json")] 0 0 0)
    k0 "invalid json" 0 (by simp [lookupFile])

/-- C9: `clear()` removes all entries and returns the number removed, leaves
the hit and miss counters unchanged, returns 0 on an empty store, and after it
every `get` misses — on all three backends. -/
theorem clear_removes_all_keeps_counters :
    (∀ (V : Type) (s : MemoryCache V),
        s.clear.1 = s.cache.length ∧
        s.clear.2.cache = [] ∧
        s.clear.2.hits = s.hits ∧ s.clear.2.misses = s.misses ∧
        (s.cache = [] → s.clear.1 = 0) ∧
        (∀ (k : CacheKey) (now : ℚ), (s.clear.2.get k now).1 = none)) ∧
    (∀ (V : Type) (s : FileCache V),
        s.clear.1 = s.files.length ∧
        s.clear.2.files = [] ∧
        s.clear.2.hits = s.hits ∧ s.clear.2.misses = s.misses ∧
        (s.files = [] → s.clear.1 = 0) ∧
        (∀ (k : CacheKey) (now : ℚ), (s.clear.2.get k now).1 = none)) ∧
    (∀ (V : Type) (s : SQLiteCache V),
        s.clear.1 = s.rows.length ∧
        s.clear.2.rows = [] ∧
        s.clear.2.hits = s.hits ∧ s.clear.2.misses = s.misses ∧
        (s.rows = [] → s.clear.1 = 0) ∧
        (∀ (k : CacheKey) (now : ℚ), (s.clear.2.get k now).1 = none)) := by
  refine ⟨?_, ?_, ?_⟩
  · intro V s
    refine ⟨rfl, rfl, rfl, rfl, fun h => by simp [MemoryCache.clear, h], ?_⟩
    intro k now
    simp [MemoryCache.get, MemoryCache.clear, lookupEntry]
  · intro V s
    refine ⟨rfl, rfl, rfl, rfl, fun h => by simp [FileCache.clear, h], ?_⟩
    intro k now
    simp [FileCache.get, FileCache.clear, lookupFile]
  · intro V s
    refine ⟨rfl, rfl, rfl, rfl, fun h => by simp [SQLiteCache.clear, h], ?_⟩
    intro k now
    simp [SQLiteCache.get, SQLiteCache.clear, lookupRow]

/-- Witness for C9: clearing the concrete empty stores returns 0 and a
subsequent `get` misses on each backend. -/
theorem clear_removes_all_keeps_counters_witness :
    memS.clear.1 = 0 ∧ (memS.clear.2.get k0 0).1 = none ∧
    fileS.clear.1 = 0 ∧ (fileS.clear.2.get k0 0).1 = none ∧
    sqlS.clear.1 = 0 ∧ (sqlS.clear.2.get k0 0).1 = none :=
  ⟨(clear_removes_all_keeps_counters.1 Nat memS).2.2.2.2.1 rfl,
   (clear_removes_all_keeps_counters.1 Nat memS).2.2.2.2.2 k0 0,
   (clear_removes_all_keeps_counters.2.1 Nat fileS).2.2.2.2.1 rfl,
   (clear_removes_all_keeps_counters.2.1 Nat fileS).2.2.2.2.2 k0 0,
   (clear_removes_all_keeps_counters.2.2 Nat sqlS).2.2.2.2.1 rfl,
   (clear_removes_all_keeps_counters.2.2 Nat sqlS).2.2.2.2.2 k0 0⟩

/-- C3: expiry — an entry with a set (nonzero) TTL is expired exactly when
`now - createdAt > ttl`; `get` never returns an expired entry (whenever it
returns a value, the stored entry was present and not expired); and for a
store with default TTL 0.1, `get` immediately after `set` returns the value
while any `get` more than 0.15 seconds after the `set` misses, removes the
entry, and increments the miss counter. -/
theorem ttl_expiry_semantics :
    (∀ (V : Type) (e : CacheEntry V) (now : ℚ), e.ttl ≠ 0 →
        (e.Expired now ↔ now - e.created_at > e.ttl)) ∧
    (∀ (V : Type) (s : MemoryCache V) (k : CacheKey) (now : ℚ) (v : V),
        (s.get k now).1 = some v →
        ∃ e, lookupEntry s.cache k = some e ∧ e.value = v ∧ ¬ e.Expired now) ∧
    (∀ (V : Type) (s : MemoryCache V) (k : CacheKey) (v : V) (t0 : ℚ),
        s.ttl = 1/10 → 1 ≤ s.max_size →
        ((s.set k v none t0).get k t0).1 = some v ∧
        (∀ t : ℚ, t - t0 > 3/20 →
          ((s.set k v none t0).get k t).1 = none ∧
          lookupEntry (((s.set k v none t0).get k t).2.cache) k = none ∧
          ((s.set k v none t0).get k t).2.misses =
            (s.set k v none t0).misses + 1)) := by
  refine ⟨?_, ?_, ?_⟩
  · intro V e now httl
    constructor
    · intro h
      exact h.2
    · intro h
      exact ⟨httl, h⟩
  · intro V s k now v hget
    cases hl : lookupEntry s.cache k with
    | none => simp [MemoryCache.get, hl] at hget
    | some e =>
      by_cases hexp : e.Expired now
      · simp [MemoryCache.get, hl, if_pos hexp] at hget
      · simp only [MemoryCache.get, hl, if_neg hexp] at hget
        refine ⟨e, rfl, ?_, hexp⟩
        simpa using hget
  · intro V s k v t0 httl hmax
    have h0 : (0 : ℚ) ≤ Option.getD none s.ttl := by
      simp [httl]
    refine ⟨memory_get_of_lookup _ k _ t0 (memory_set_lookup s k v none t0 hmax)
      (entry_not_expired_same_instant v t0 _ h0), ?_⟩
    intro t ht
    have hlook := memory_set_lookup s k v none t0 hmax
    have hexp : (CacheEntry.mk v t0 (Option.getD none s.ttl)).Expired t := by
      constructor
      · simp [httl]
      · simp only [Option.getD_none, httl]
        linarith
    simp only [MemoryCache.get, hlook, if_pos hexp]
    exact ⟨trivial, lookupEntry_removeKey_self _ k, trivial⟩

/-- Witness for C3 at concrete inputs: an entry with TTL 0.1 created at 0 is
expired at time 1; the store with default TTL 0.1 hits immediately after the
set and misses, removes and counts a miss at time 0.2 > 0.15; and the hit
at time 0 exhibits a stored, unexpired entry. -/
theorem ttl_expiry_semantics_witness :
    (CacheEntry.mk 7 0 (1/10) : CacheEntry Nat).Expired 1 ∧
    (∃ e, lookupEntry ((memS10.set k0 7 none 0).cache) k0 = some e ∧
      e.value = 7 ∧ ¬ e.Expired 0) ∧
    ((memS10.set k0 7 none 0).get k0 0).1 = some 7 ∧
    ((memS10.set k0 7 none 0).get k0 (1/5)).1 = none ∧
    lookupEntry (((memS10.set k0 7 none 0).get k0 (1/5)).2.cache) k0 = none ∧
    ((memS10.set k0 7 none 0).get k0 (1/5)).2.misses =
      (memS10.set k0 7 none 0).misses + 1 := by
  have hpart := ttl_expiry_semantics.2.2 Nat memS10 k0 7 0 rfl (by decide)
  have hlate := hpart.2 (1/5) (by norm_num)
  have hexpired := (ttl_expiry_semantics.1 Nat (CacheEntry.mk 7 0 (1/10)) 1
    (by norm_num)).mpr (by norm_num)
  have hsome := ttl_expiry_semantics.2.1 Nat (memS10.set k0 7 none 0) k0 0 7 hpart.1
  exact ⟨hexpired, hsome, hpart.1, hlate.1, hlate.2.1, hlate.2.2⟩

/-- The fingerprints the LRU test derives for paths "1", "2", "3". -/
def kA : CacheKey := CacheKey.create emptyFS "1" "p" [] "g" ""

/-- Second fingerprint of the LRU test. -/
def kB : CacheKey := CacheKey.create emptyFS "2" "p" [] "g" ""

/-- Third fingerprint of the LRU test. -/
def kC : CacheKey := CacheKey.create emptyFS "3" "p" [] "g" ""

/-- The LRU test scenario on a capacity-2 store: insert `kA`, insert `kB`,
read `kA` (making it most-recently-used), insert `kC`. -/
def lruScenario : MemoryCache Nat :=
  ((((memS.set kA 1 none 1).set kB 2 none 2).get kA 3).2).set kC 3 none 4

/-- C4: bounded LRU eviction — every operation of the bounded volatile store
preserves `size ≤ max_size` (`set` establishes it unconditionally, evicting
from the least-recently-used end of the recency order, i.e. the result is a
suffix of the updated recency list); `set` never touches the miss counter; a
`get` hit on an unexpired entry marks it most-recently-used (it becomes the
last element of the recency order); and on the concrete capacity-2 scenario
`set kA, set kB, get kA, set kC`, the reads `get kA` and `get kC` hit while
`get kB` misses. -/
theorem memory_lru_bounded :
    (∀ (V : Type) (s : MemoryCache V) (k : CacheKey) (now : ℚ),
        s.cache.length ≤ s.max_size →
        (s.get k now).2.cache.length ≤ s.max_size) ∧
    (∀ (V : Type) (s : MemoryCache V) (k : CacheKey) (v : V)
        (ttlOpt : Option ℚ) (now : ℚ),
        (s.set k v ttlOpt now).cache.length ≤ s.max_size ∧
        (∃ d, (s.set k v ttlOpt now).cache =
          (removeKey s.cache k ++
            [(k, CacheEntry.mk v now (ttlOpt.getD s.ttl))]).drop d) ∧
        (s.set k v ttlOpt now).misses = s.misses) ∧
    (∀ (V : Type) (s : MemoryCache V) (k : CacheKey) (now : ℚ),
        s.cache.length ≤ s.max_size →
        ((s.delete k).2.cache.length ≤ s.max_size ∧
         (s.cleanup_expired now).2.cache.length ≤ s.max_size ∧
         s.clear.2.cache.length ≤ s.max_size)) ∧
    (∀ (V : Type) (s : MemoryCache V) (k : CacheKey) (e : CacheEntry V) (now : ℚ),
        lookupEntry s.cache k = some e → ¬ e.Expired now →
        (s.get k now).2.cache.getLast? = some (k, e)) ∧
    ((lruScenario.get kA 5).1 = some 1 ∧
     ((lruScenario.get kA 5).2.get kC 6).1 = some 3 ∧
     (((lruScenario.get kA 5).2.get kC 6).2.get kB 7).1 = none) := by
  refine ⟨?_, ?_, ?_, ?_, by decide⟩
  · intro V s k now hb
    cases hl : lookupEntry s.cache k with
    | none => simpa [MemoryCache.get, hl] using hb
    | some e =>
      by_cases hexp : e.Expired now
      · simp only [MemoryCache.get, hl, if_pos hexp]
        exact le_trans (List.length_filter_le _ _) hb
      · simp only [MemoryCache.get, hl, if_neg hexp]
        have hlt := removeKey_length_lt hl
        simp only [List.length_append, List.length_cons, List.length_nil]
        omega
  · intro V s k v ttlOpt now
    refine ⟨?_, ⟨(removeKey s.cache k ++
        [(k, CacheEntry.mk v now (ttlOpt.getD s.ttl))]).length - s.max_size, ?_⟩, rfl⟩
    · show (evictToCapacity s.max_size (removeKey s.cache k ++
          [(k, CacheEntry.mk v now (ttlOpt.getD s.ttl))])).length ≤ s.max_size
      rw [evictToCapacity_eq_drop, List.length_drop]
      omega
    · show evictToCapacity s.max_size (removeKey s.cache k ++
          [(k, CacheEntry.mk v now (ttlOpt.getD s.ttl))]) = _
      exact evictToCapacity_eq_drop _ _
  · intro V s k now hb
    refine ⟨?_, ?_, ?_⟩
    · cases hl : lookupEntry s.cache k with
      | none => simpa [MemoryCache.delete, hl] using hb
      | some e =>
        simp only [MemoryCache.delete, hl]
        exact le_trans (List.length_filter_le _ _) hb
    · simp only [MemoryCache.cleanup_expired]
      exact le_trans (List.length_filter_le _ _) hb
    · simp only [MemoryCache.clear]
      simp
  · intro V s k e now hl hexp
    simp only [MemoryCache.get, hl, if_neg hexp]
    exact List.getLast?_concat _

/-- Witness for C4 at concrete inputs: the size bound is preserved by `get`,
`delete`, `cleanup_expired` and `clear` on the empty capacity-2 store, and a
hit on the stored entry makes it most-recently-used. -/
theorem memory_lru_bounded_witness :
    ((memS.get k0 0).2.cache.length ≤ memS.max_size) ∧
    ((memS.set k0 7 none 0).cache.length ≤ memS.max_size ∧
      (memS.set k0 7 none 0).misses = memS.misses) ∧
    ((memS.delete k0).2.cache.length ≤ memS.max_size) ∧
    ((memS.set k0 7 none 0).get k0 0).2.cache.getLast? =
      some (k0, CacheEntry.mk 7 0 0) := by
  have hset := memory_lru_bounded.2.1 Nat memS k0 7 none 0
  refine ⟨memory_lru_bounded.1 Nat memS k0 0 (by decide),
    ⟨hset.1, hset.2.2⟩,
    (memory_lru_bounded.2.2.1 Nat memS k0 0 (by decide)).1, ?_⟩
  exact memory_lru_bounded.2.2.2.1 Nat (memS.set k0 7 none 0) k0
    (CacheEntry.mk 7 0 0) 0 (by decide) (by decide)
